import Mathlib

/-!
Shallow embedding of the LC-3 virtual machine in src/src/vm.rs.

Machine words are 16-bit unsigned integers, modelled as Nat with explicit
truncation (% 65536) exactly at the places where the Rust source casts a
32-bit intermediate back to u16.  Where the source performs a plain u16
addition (which overflow-panics in a debug build instead of wrapping), the
embedding uses a checked addition returning Option, so an overflow shows up
as none.  Console input is a list of bytes threaded through the operations
that read stdin; console output is accumulated as a list of byte values.
-/

namespace LC3

/-- Register file indices, from the Registers enum: R0-R7 are 0-7,
PC is 8 and COND is 9. -/
def RPC : Nat := 8

/-- Index of the condition-code register COND. -/
def RCOND : Nat := 9

/-- Condition flag POS, 1 <<< 0, from the Flags enum. -/
def FlagPOS : Nat := 1

/-- Condition flag ZRO, 1 <<< 1, from the Flags enum. -/
def FlagZRO : Nat := 2

/-- Condition flag NEG, 1 <<< 2, from the Flags enum. -/
def FlagNEG : Nat := 4

/-- Keyboard status register address, MR::KBSR. -/
def MR_KBSR : Nat := 0xFE00

/-- Keyboard data register address, MR::KBDR. -/
def MR_KBDR : Nat := 0xFE02

/-- Size of the address space, MEM_MAX = 1 <<< 16. -/
def MEM_MAX : Nat := 65536

/-- Machine state: the ten-slot register file (indices 0-9) and the
65536-word memory, both holding 16-bit words.  Mirrors struct Vm. -/
@[ext] structure Vm where
  reg : Nat → Nat
  mem : Nat → Nat

/-- A machine state is well formed when every register and memory word
fits in 16 bits, as the u16 typing of struct Vm guarantees in the source. -/
def Vm.WF (vm : Vm) : Prop :=
  (∀ i, vm.reg i < 65536) ∧ (∀ a, vm.mem a < 65536)

/-- Checked 16-bit addition: models a plain Rust u16 + (or += ), which
does not wrap but overflow-panics in a debug build; none is the panic. -/
def chkAdd (a b : Nat) : Option Nat :=
  if a + b < 65536 then some (a + b) else none

/-- Vm::sign_extend: if bit (bit_count - 1) of x is set, OR in
0xFFFF <<< bit_count (a u16 shift, hence truncated to 16 bits).
The low bits of x are not masked. -/
def signExtend (x : Nat) (bit_count : Nat) : Nat :=
  if (x >>> (bit_count - 1)) &&& 1 ≠ 0 then
    x ||| ((0xFFFF <<< bit_count) % 65536)
  else x

/-- Vm::swap16: (x <<< 8) ||| (x >>> 8) in u16 arithmetic, so the left
shift is truncated to 16 bits. -/
def swap16 (x : Nat) : Nat :=
  ((x <<< 8) % 65536) ||| (x >>> 8)

/-- Vm::update_flags: recompute COND from the current value of the named
register: ZRO when it is 0, NEG when bit 15 is set, POS otherwise. -/
def updateFlags (vm : Vm) (register : Nat) : Vm :=
  if vm.reg register = 0 then
    { vm with reg := Function.update vm.reg RCOND FlagZRO }
  else if vm.reg register >>> 15 ≠ 0 then
    { vm with reg := Function.update vm.reg RCOND FlagNEG }
  else
    { vm with reg := Function.update vm.reg RCOND FlagPOS }

/-- Vm::mem_write: unconditional store. -/
def memWrite (vm : Vm) (address : Nat) (val : Nat) : Vm :=
  { vm with mem := Function.update vm.mem address val }

/-- Vm::handle_keyboard: block for one byte of stdin (none models the
read_exact unwrap panic at end of input); a non-zero byte sets bit 15 of
the status word and stores the byte, zero-extended, in the data word,
otherwise the status word is cleared to zero. -/
def handleKeyboard (vm : Vm) (inp : List Nat) : Option (Vm × List Nat) :=
  match inp with
  | [] => none
  | b :: rest =>
    if b ≠ 0 then
      some ({ vm with
              mem := Function.update
                       (Function.update vm.mem MR_KBSR (1 <<< 15)) MR_KBDR b },
            rest)
    else
      some ({ vm with mem := Function.update vm.mem MR_KBSR 0 }, rest)

/-- Vm::mem_read: a read of the keyboard status address first polls the
input device via handle_keyboard; the value returned is the word stored at
the address after the optional poll. -/
def memRead (vm : Vm) (address : Nat) (inp : List Nat) :
    Option (Vm × List Nat × Nat) :=
  if address = MR_KBSR then
    (handleKeyboard vm inp).map (fun p => (p.1, p.2, p.1.mem address))
  else
    some (vm, inp, vm.mem address)

/-- Vm::br: branch when the condition bits of the instruction intersect
COND; the new PC is computed through a u32 intermediate and truncated. -/
def br (vm : Vm) (instruction : Nat) : Vm :=
  let pc_offset := signExtend (instruction &&& 0x1FF) 9
  let cond_flag := (instruction >>> 9) &&& 0x7
  if cond_flag &&& vm.reg RCOND ≠ 0 then
    { vm with reg := Function.update vm.reg RPC
                       ((vm.reg RPC + pc_offset) % 65536) }
  else vm

/-- Vm::add: register or immediate addition through a u32 intermediate,
truncated to 16 bits, followed by update_flags on the destination. -/
def add (vm : Vm) (instruction : Nat) : Vm :=
  let dest := (instruction >>> 9) &&& 0x7
  let op1 := (instruction >>> 6) &&& 0x7
  let imm_flag := (instruction >>> 5) &&& 0x1
  let vm' :=
    if imm_flag = 1 then
      let imm := signExtend (instruction &&& 0x1F) 5
      { vm with reg := Function.update vm.reg dest
                         ((vm.reg op1 + imm) % 65536) }
    else
      let op2 := instruction &&& 0x7
      { vm with reg := Function.update vm.reg dest
                         ((vm.reg op1 + vm.reg op2) % 65536) }
  updateFlags vm' dest

/-- Vm::ld: PC-relative load (u32 intermediate for the address), then
update_flags on the destination. -/
def ld (vm : Vm) (instruction : Nat) (inp : List Nat) :
    Option (Vm × List Nat) :=
  let r0 := (instruction >>> 9) &&& 0x7
  let pc_offset := signExtend (instruction &&& 0x1FF) 9
  match memRead vm ((vm.reg RPC + pc_offset) % 65536) inp with
  | none => none
  | some (vm1, inp1, v) =>
    some (updateFlags { vm1 with reg := Function.update vm1.reg r0 v } r0, inp1)

/-- Vm::st: PC-relative store (u32 intermediate for the address). -/
def st (vm : Vm) (instruction : Nat) : Vm :=
  let r0 := (instruction >>> 9) &&& 0x7
  let pc_offset := signExtend (instruction &&& 0x1FF) 9
  memWrite vm ((vm.reg RPC + pc_offset) % 65536) (vm.reg r0)

/-- Vm::jsr: save PC in R7, then either a long PC-relative jump (u32
intermediate) or a jump to a base register. -/
def jsr (vm : Vm) (instruction : Nat) : Vm :=
  let long_flag := (instruction >>> 11) &&& 1
  let vm1 := { vm with reg := Function.update vm.reg 7 (vm.reg RPC) }
  if long_flag ≠ 0 then
    let long_pc_offset := signExtend (instruction &&& 0x7FF) 11
    { vm1 with reg := Function.update vm1.reg RPC
                        ((vm1.reg RPC + long_pc_offset) % 65536) }
  else
    let r1 := (instruction >>> 6) &&& 0x7
    { vm1 with reg := Function.update vm1.reg RPC (vm1.reg r1) }

/-- Vm::and: register or immediate bitwise and, followed by update_flags
on the destination. -/
def and (vm : Vm) (instruction : Nat) : Vm :=
  let r0 := (instruction >>> 9) &&& 0x7
  let r1 := (instruction >>> 6) &&& 0x7
  let imm_flag := (instruction >>> 5) &&& 0x1
  let vm' :=
    if imm_flag = 1 then
      let imm := signExtend (instruction &&& 0x1F) 5
      { vm with reg := Function.update vm.reg r0 (vm.reg r1 &&& imm) }
    else
      let r2 := instruction &&& 0x7
      { vm with reg := Function.update vm.reg r0 (vm.reg r1 &&& vm.reg r2) }
  updateFlags vm' r0

/-- Vm::ldr: base-plus-offset load.  The source adds base register and
offset with a plain u16 +, so the addition is checked, not wrapped. -/
def ldr (vm : Vm) (instruction : Nat) (inp : List Nat) :
    Option (Vm × List Nat) :=
  let r0 := (instruction >>> 9) &&& 0x7
  let r1 := (instruction >>> 6) &&& 0x7
  let offset := signExtend (instruction &&& 0x3F) 6
  match chkAdd (vm.reg r1) offset with
  | none => none
  | some addr =>
    match memRead vm addr inp with
    | none => none
    | some (vm1, inp1, v) =>
      some (updateFlags { vm1 with reg := Function.update vm1.reg r0 v } r0,
            inp1)

/-- Vm::str: base-plus-offset store (u32 intermediate for the address). -/
def str (vm : Vm) (instruction : Nat) : Vm :=
  let r0 := (instruction >>> 9) &&& 0x7
  let r1 := (instruction >>> 6) &&& 0x7
  let offset := signExtend (instruction &&& 0x3F) 6
  memWrite vm ((vm.reg r1 + offset) % 65536) (vm.reg r0)

/-- Vm::not: bitwise complement of a u16 value, then update_flags. -/
def not (vm : Vm) (instruction : Nat) : Vm :=
  let r0 := (instruction >>> 9) &&& 0x7
  let r1 := (instruction >>> 6) &&& 0x7
  updateFlags
    { vm with reg := Function.update vm.reg r0 (vm.reg r1 ^^^ 0xFFFF) } r0

/-- Vm::ldi: double-indirect load.  The first effective address is
computed with a plain u16 + (reg[PC] + pc_offset, no u32 cast in the
source), so that addition is checked, not wrapped. -/
def ldi (vm : Vm) (instruction : Nat) (inp : List Nat) :
    Option (Vm × List Nat) :=
  let r0 := (instruction >>> 9) &&& 0x7
  let pc_offset := signExtend (instruction &&& 0x1FF) 9
  match chkAdd (vm.reg RPC) pc_offset with
  | none => none
  | some a =>
    match memRead vm a inp with
    | none => none
    | some (vm1, inp1, temp) =>
      match memRead vm1 temp inp1 with
      | none => none
      | some (vm2, inp2, v) =>
        some (updateFlags { vm2 with reg := Function.update vm2.reg r0 v } r0,
              inp2)

/-- Vm::sti: store through a pointer read at a PC-relative address
(u32 intermediate for the PC-relative address). -/
def sti (vm : Vm) (instruction : Nat) (inp : List Nat) :
    Option (Vm × List Nat) :=
  let r0 := (instruction >>> 9) &&& 0x7
  let pc_offset := signExtend (instruction &&& 0x1FF) 9
  match memRead vm ((vm.reg RPC + pc_offset) % 65536) inp with
  | none => none
  | some (vm1, inp1, temp) =>
    some (memWrite vm1 temp (vm1.reg r0), inp1)

/-- Vm::jmp: PC becomes the named base register. -/
def jmp (vm : Vm) (instruction : Nat) : Vm :=
  let r1 := (instruction >>> 6) &&& 0x7
  { vm with reg := Function.update vm.reg RPC (vm.reg r1) }

/-- Vm::lea: destination receives PC plus the sign-extended offset (u32
intermediate, truncated), then update_flags. -/
def lea (vm : Vm) (instruction : Nat) : Vm :=
  let r0 := (instruction >>> 9) &&& 0x7
  let pc_offset := signExtend (instruction &&& 0x1FF) 9
  updateFlags
    { vm with reg := Function.update vm.reg r0
                       ((vm.reg RPC + pc_offset) % 65536) } r0

/-- Result of one dispatch of the run loop in main, or of a trap:
cont means execution continues; halted is the HALT trap (println then
exit(1)); invalidTrap is the default trap arm (println then exit(1));
decodeFail is the default opcode arm of main (break, println, exit(0)).
Each carries the machine state, the remaining input and the output
characters the step produced. -/
inductive Outcome where
  | cont (vm : Vm) (inp : List Nat) (out : List Nat)
  | halted (vm : Vm) (inp : List Nat) (out : List Nat)
  | invalidTrap (vm : Vm) (inp : List Nat) (out : List Nat)
  | decodeFail (vm : Vm) (inp : List Nat) (out : List Nat)

/-- Process exit code of each outcome, from the exit calls in the source:
exit(1) on HALT, exit(1) on an unrecognized trap vector, exit(0) after
the run loop breaks on an unmatched opcode.  cont does not exit. -/
def exitCode : Outcome → Option Int
  | .cont _ _ _ => none
  | .halted _ _ _ => some 1
  | .invalidTrap _ _ _ => some 1
  | .decodeFail _ _ _ => some 0

/-- Loop body of the PUTS trap: read words from index onward, emitting
the low byte of each, until a zero word; the index advances with a plain
u16 += 1, so the increment is checked, not wrapped. -/
def putsLoop (vm : Vm) (inp : List Nat) (index : Nat) (out : List Nat) :
    Option (Vm × List Nat × List Nat) :=
  match memRead vm index inp with
  | none => none
  | some (vm1, inp1, c) =>
    if c ≠ 0 then
      if _h : index + 1 < 65536 then
        putsLoop vm1 inp1 (index + 1) (out ++ [c &&& 0xFF])
      else none
    else some (vm1, inp1, out)
termination_by 65536 - index
decreasing_by omega

/-- Loop body of the PUTSP trap: each non-zero word emits its low byte
and, when non-zero, its high byte; the index advances with a plain u16
+= 1, so the increment is checked, not wrapped. -/
def putspLoop (vm : Vm) (inp : List Nat) (index : Nat) (out : List Nat) :
    Option (Vm × List Nat × List Nat) :=
  match memRead vm index inp with
  | none => none
  | some (vm1, inp1, c) =>
    if c ≠ 0 then
      let c1 := c &&& 0xFF
      let c2 := (c >>> 8) &&& 0xFF
      let out' := if c2 ≠ 0 then out ++ [c1, c2] else out ++ [c1]
      if _h : index + 1 < 65536 then
        putspLoop vm1 inp1 (index + 1) out'
      else none
    else some (vm1, inp1, out)
termination_by 65536 - index
decreasing_by omega

/-- Vm::trap: R7 is set to PC first, then the low 8 bits of the
instruction select the service.  GETC and IN block for one stdin byte and
store it, zero-extended, in R0 (the IN prompt text printed to the console
is not part of the modelled program output); OUT emits the low byte of
R0; PUTS and PUTSP run their output loops starting at the address in R0;
HALT ends execution; any other vector is the fatal default arm. -/
def trap (vm : Vm) (instruction : Nat) (inp : List Nat) : Option Outcome :=
  let vm0 := { vm with reg := Function.update vm.reg 7 (vm.reg RPC) }
  if instruction &&& 0xFF = 0x20 then
    match inp with
    | [] => none
    | b :: rest =>
      some (.cont { vm0 with reg := Function.update vm0.reg 0 b } rest [])
  else if instruction &&& 0xFF = 0x21 then
    some (.cont vm0 inp [vm0.reg 0 &&& 0xFF])
  else if instruction &&& 0xFF = 0x22 then
    (putsLoop vm0 inp (vm0.reg 0) []).map (fun p => .cont p.1 p.2.1 p.2.2)
  else if instruction &&& 0xFF = 0x23 then
    match inp with
    | [] => none
    | b :: rest =>
      some (.cont { vm0 with reg := Function.update vm0.reg 0 b } rest [])
  else if instruction &&& 0xFF = 0x24 then
    (putspLoop vm0 inp (vm0.reg 0) []).map (fun p => .cont p.1 p.2.1 p.2.2)
  else if instruction &&& 0xFF = 0x25 then
    some (.halted vm0 inp [])
  else
    some (.invalidTrap vm0 inp [])

/-- Decode and dispatch of a fetched instruction word, from the match in
main: the top 4 bits select the handler; opcodes 8 (RTI) and 13 (RES) do
nothing; any value outside 0-15 (impossible for a 16-bit word) breaks
the loop. -/
def execInstr (vm : Vm) (instruction : Nat) (inp : List Nat) :
    Option Outcome :=
  if instruction >>> 12 = 0 then some (.cont (br vm instruction) inp [])
  else if instruction >>> 12 = 1 then some (.cont (add vm instruction) inp [])
  else if instruction >>> 12 = 2 then
    (ld vm instruction inp).map (fun p => .cont p.1 p.2 [])
  else if instruction >>> 12 = 3 then some (.cont (st vm instruction) inp [])
  else if instruction >>> 12 = 4 then some (.cont (jsr vm instruction) inp [])
  else if instruction >>> 12 = 5 then some (.cont (and vm instruction) inp [])
  else if instruction >>> 12 = 6 then
    (ldr vm instruction inp).map (fun p => .cont p.1 p.2 [])
  else if instruction >>> 12 = 7 then some (.cont (str vm instruction) inp [])
  else if instruction >>> 12 = 8 then some (.cont vm inp [])
  else if instruction >>> 12 = 9 then some (.cont (not vm instruction) inp [])
  else if instruction >>> 12 = 10 then
    (ldi vm instruction inp).map (fun p => .cont p.1 p.2 [])
  else if instruction >>> 12 = 11 then
    (sti vm instruction inp).map (fun p => .cont p.1 p.2 [])
  else if instruction >>> 12 = 12 then some (.cont (jmp vm instruction) inp [])
  else if instruction >>> 12 = 13 then some (.cont vm inp [])
  else if instruction >>> 12 = 14 then some (.cont (lea vm instruction) inp [])
  else if instruction >>> 12 = 15 then trap vm instruction inp
  else some (.decodeFail vm inp [])

/-- One iteration of the run loop in main: fetch the word at PC through
mem_read, advance PC with a plain u16 += 1 (checked, not wrapped), then
decode and dispatch. -/
def step (vm : Vm) (inp : List Nat) : Option Outcome :=
  match memRead vm (vm.reg RPC) inp with
  | none => none
  | some (vm1, inp1, instruction) =>
    match chkAdd (vm1.reg RPC) 1 with
    | none => none
    | some pcNext =>
      execInstr { vm1 with reg := Function.update vm1.reg RPC pcNext }
        instruction inp1

/-- Byte-level effect of the raw read in Vm::read_image followed by its
swap loop: consecutive byte pairs land in consecutive memory words
(little-endian host order) and each fully or partially written word is
then byte-swapped; a trailing odd byte overwrites only the low host byte,
keeping the word's previous high byte. -/
def loadBytes (mem : Nat → Nat) (addr : Nat) : List Nat → (Nat → Nat)
  | [] => mem
  | [b0] =>
    Function.update mem addr (swap16 (b0 ||| (((mem addr) >>> 8) <<< 8)))
  | b0 :: b1 :: rest =>
    loadBytes (Function.update mem addr (swap16 (b0 ||| (b1 <<< 8)))) (addr + 1)
      rest

/-- Vm::read_image on a byte stream: the first two bytes form the origin
(read raw into a little-endian u16, then swap16, hence big-endian); the
origin check against MEM_MAX is kept although a u16 origin cannot exceed
it; the data bytes (capped by the reader budget of MEM_MAX*2 bytes and by
the destination slice length MEM_MAX*2 - origin) are stored from the
origin onward and byte-swapped in place; the count returned is the number
of data bytes read, as returned by handle.read. -/
def readImage (vm : Vm) (bytes : List Nat) : Option (Vm × Nat) :=
  let b0 := bytes.getD 0 0
  let b1 := bytes.getD 1 0
  let origin := swap16 (b0 ||| (b1 <<< 8))
  if origin > MEM_MAX then none
  else
    let data := (bytes.drop 2).take (min (MEM_MAX * 2 - 2) (MEM_MAX * 2 - origin))
    some ({ vm with mem := loadBytes vm.mem origin data }, data.length)

/-- Zeroed machine: registers and memory all zero, as Vm::new builds. -/
def vmInit : Vm := { reg := fun _ => 0, mem := fun _ => 0 }

/-- Machine with PC at the top of the address space and zeroed memory,
used to exercise the overflow behaviour of the unchecked additions. -/
def vmTop : Vm := { reg := fun i => if i = RPC then 0xFFFF else 0, mem := fun _ => 0 }

/-- Machine whose memory holds opcode-8 (RTI) words everywhere and whose
registers are all 0x3000. -/
def vmRti : Vm := { reg := fun _ => 0x3000, mem := fun _ => 0x8000 }

theorem lor_two_pow_mul {lo : Nat} (hi k : Nat) (h : lo < 2 ^ k) :
    lo ||| (hi <<< k) = lo + 2 ^ k * hi := by
  rw [Nat.shiftLeft_eq, Nat.mul_comm hi (2 ^ k), Nat.or_comm,
    ← Nat.mul_add_lt_is_or h, Nat.add_comm]

theorem testBit15_true {v : Nat} (hv : v < 65536) (h : v >>> 15 ≠ 0) :
    Nat.testBit v 15 = true := by
  rw [Nat.shiftRight_eq_div_pow] at h
  rw [Nat.testBit_to_div_mod]
  norm_num at h ⊢
  omega

theorem testBit15_false {v : Nat} (h : v >>> 15 = 0) :
    Nat.testBit v 15 = false := by
  rw [Nat.shiftRight_eq_div_pow] at h
  apply Nat.testBit_lt_two_pow
  norm_num at h ⊢
  omega

theorem existsUnique_testBit_two_pow (k : Nat) :
    ∃! i, Nat.testBit (2 ^ k) i = true := by
  refine ⟨k, Nat.testBit_two_pow_self, fun j hj => ?_⟩
  simp only [Nat.testBit_two_pow, decide_eq_true_eq] at hj
  exact hj.symm

theorem updateFlags_c1 (vmW : Vm) (d : Nat) (hd : d < 9)
    (hv : vmW.reg d < 65536) :
    (updateFlags vmW d).reg RCOND =
      (if (updateFlags vmW d).reg d = 0 then FlagZRO
       else if Nat.testBit ((updateFlags vmW d).reg d) 15 then FlagNEG
       else FlagPOS) ∧
    (∃! i, Nat.testBit ((updateFlags vmW d).reg RCOND) i = true) := by
  have hne : d ≠ RCOND := by simp only [RCOND]; omega
  unfold updateFlags
  by_cases h0 : vmW.reg d = 0
  · simp only [h0, if_pos, if_true, reduceIte]
    constructor
    · simp [Function.update_same, Function.update_noteq hne, h0]
    · simp only [Function.update_same]
      exact (by decide : (FlagZRO : Nat) = 2 ^ 1) ▸
        existsUnique_testBit_two_pow 1
  · by_cases h15 : vmW.reg d >>> 15 ≠ 0
    · simp only [h0, h15, reduceIte, ne_eq, not_false_eq_true, if_true]
      constructor
      · simp [Function.update_same, Function.update_noteq hne, h0,
          testBit15_true hv h15]
      · simp only [Function.update_same]
        exact (by decide : (FlagNEG : Nat) = 2 ^ 2) ▸
          existsUnique_testBit_two_pow 2
    · push_neg at h15
      simp only [h0, h15, reduceIte, ne_eq, not_true_eq_false, if_false]
      constructor
      · simp [Function.update_same, Function.update_noteq hne, h0,
          testBit15_false h15]
      · simp only [Function.update_same]
        exact (by decide : (FlagPOS : Nat) = 2 ^ 0) ▸
          existsUnique_testBit_two_pow 0


theorem memRead_wf {vm vm1 : Vm} {address : Nat} {inp inp1 : List Nat}
    {v : Nat} (h : memRead vm address inp = some (vm1, inp1, v))
    (hmem : ∀ a, vm.mem a < 65536) (hin : ∀ x ∈ inp, x < 256) :
    (∀ a, vm1.mem a < 65536) ∧ v < 65536 ∧ (∀ x ∈ inp1, x < 256) ∧
    vm1.reg = vm.reg := by
  unfold memRead at h
  by_cases ha : address = MR_KBSR
  · rw [if_pos ha] at h
    cases inp with
    | nil => simp [handleKeyboard] at h
    | cons b rest =>
      have hb256 : b < 256 := hin b (List.mem_cons_self b rest)
      have hrest : ∀ x ∈ rest, x < 256 :=
        fun x hx => hin x (List.mem_cons_of_mem b hx)
      by_cases hb : b = 0
      · simp only [handleKeyboard, hb, ne_eq, not_true_eq_false, if_false,
          Option.map_some', Option.some.injEq, Prod.mk.injEq] at h
        obtain ⟨h1, h2, h3⟩ := h
        subst h1; subst h2; subst h3
        refine ⟨fun a => ?_, ?_, hrest, rfl⟩
        · simp only [Function.update_apply]
          split_ifs <;> first | omega | exact hmem a
        · rw [ha, Function.update_same]
          omega
      · simp only [handleKeyboard, hb, ne_eq, not_false_eq_true, if_true,
          Option.map_some', Option.some.injEq, Prod.mk.injEq] at h
        obtain ⟨h1, h2, h3⟩ := h
        subst h1; subst h2; subst h3
        refine ⟨fun a => ?_, ?_, hrest, rfl⟩
        · simp only [Function.update_apply]
          split_ifs <;> first | omega | exact hmem a
        · rw [ha]
          rw [Function.update_noteq (by simp [MR_KBSR, MR_KBDR]),
            Function.update_same]
          omega
  · rw [if_neg ha] at h
    simp only [Option.some.injEq, Prod.mk.injEq] at h
    obtain ⟨h1, h2, h3⟩ := h
    subst h1; subst h2; subst h3
    exact ⟨hmem, hmem address, hin, rfl⟩

/-- C10: for every address other than the keyboard status address,
mem_read is side-effect free: it returns the stored word and the whole
machine state (registers, memory) and the input stream are unchanged. -/
theorem memRead_pure_away_from_kbsr (vm : Vm) (address : Nat)
    (inp : List Nat) (h : address ≠ MR_KBSR) :
    memRead vm address inp = some (vm, inp, vm.mem address) := by
  simp [memRead, h]

/-- Witness for C10 at a concrete machine and address 0x3000. -/
theorem memRead_pure_away_from_kbsr_witness :
    memRead vmInit 0x3000 [] = some (vmInit, [], vmInit.mem 0x3000) :=
  memRead_pure_away_from_kbsr vmInit 0x3000 [] (by decide)

/-- C5: a mem_read of the keyboard status address 0xFE00 first polls the
input source, then returns the stored status word: a non-zero byte sets
bit 15 of the status word and stores the byte, zero-extended, at the
keyboard data address 0xFE02; a zero byte clears the status word; no
other memory word and no register changes, and the value returned is the
freshly stored status word. -/
theorem memRead_kbsr_polls (vm : Vm) (b : Nat) (rest : List Nat) :
    (memRead vm MR_KBSR (b :: rest)).map (fun p => p.2.2) =
      some (if b = 0 then 0 else 32768) ∧
    (memRead vm MR_KBSR (b :: rest)).map (fun p => p.2.1) = some rest ∧
    (∀ a, (memRead vm MR_KBSR (b :: rest)).map (fun p => p.1.mem a) =
      some (if a = MR_KBSR then (if b = 0 then 0 else 32768)
            else if a = MR_KBDR then (if b = 0 then vm.mem MR_KBDR else b)
            else vm.mem a)) ∧
    (memRead vm MR_KBSR (b :: rest)).map (fun p => p.1.reg) = some vm.reg ∧
    (memRead vm MR_KBSR (b :: rest)).map (fun p => p.2.2) =
      (memRead vm MR_KBSR (b :: rest)).map (fun p => p.1.mem MR_KBSR) ∧
    Nat.testBit (if b = 0 then 0 else 32768) 15 = decide (b ≠ 0) := by
  refine ⟨?_, ?_, fun a => ?_, ?_, ?_, ?_⟩
  · by_cases hb : b = 0 <;>
      simp [memRead, handleKeyboard, hb, MR_KBSR, MR_KBDR,
        Function.update_apply]
  · by_cases hb : b = 0 <;>
      simp [memRead, handleKeyboard, hb, MR_KBSR, MR_KBDR,
        Function.update_apply]
  · by_cases hb : b = 0 <;>
      simp [memRead, handleKeyboard, hb, MR_KBSR, MR_KBDR,
        Function.update_apply] <;>
      split_ifs <;> first | rfl | omega | simp_all
  · by_cases hb : b = 0 <;>
      simp [memRead, handleKeyboard, hb, MR_KBSR, MR_KBDR,
        Function.update_apply]
  · by_cases hb : b = 0 <;>
      simp [memRead, handleKeyboard, hb, MR_KBSR, MR_KBDR,
        Function.update_apply]
  · by_cases hb : b = 0 <;> simp [hb] ; decide

theorem lt_65536_of_lt_two_pow {v : Nat} (h : v < 2 ^ 16) : v < 65536 :=
  lt_of_lt_of_eq h (by norm_num)

theorem xor_ffff_lt {v : Nat} (h : v < 65536) : v ^^^ 0xFFFF < 65536 := by
  have h1 : v < 2 ^ 16 := lt_of_lt_of_eq h (by norm_num)
  have h2 : (0xFFFF : Nat) < 2 ^ 16 := by norm_num
  exact lt_65536_of_lt_two_pow (Nat.xor_lt_two_pow h1 h2)

theorem ld_eq {vm vmL : Vm} {instruction : Nat} {inp inpL : List Nat}
    (h : ld vm instruction inp = some (vmL, inpL)) :
    ∃ vm1 v,
      memRead vm ((vm.reg RPC + signExtend (instruction &&& 0x1FF) 9) % 65536)
          inp = some (vm1, inpL, v) ∧
      vmL = updateFlags
        { vm1 with
          reg := Function.update vm1.reg ((instruction >>> 9) &&& 0x7) v }
        ((instruction >>> 9) &&& 0x7) := by
  simp only [ld] at h
  split at h
  next heq => simp at h
  next vm1 inp1 v heq =>
    simp only [Option.some.injEq, Prod.mk.injEq] at h
    obtain ⟨h1, h2⟩ := h
    subst h2
    exact ⟨vm1, v, heq, h1.symm⟩

theorem ldr_eq {vm vmL : Vm} {instruction : Nat} {inp inpL : List Nat}
    (h : ldr vm instruction inp = some (vmL, inpL)) :
    ∃ addr vm1 v,
      chkAdd (vm.reg ((instruction >>> 6) &&& 0x7))
          (signExtend (instruction &&& 0x3F) 6) = some addr ∧
      memRead vm addr inp = some (vm1, inpL, v) ∧
      vmL = updateFlags
        { vm1 with
          reg := Function.update vm1.reg ((instruction >>> 9) &&& 0x7) v }
        ((instruction >>> 9) &&& 0x7) := by
  simp only [ldr] at h
  split at h
  next heqc => simp at h
  next addr heqc =>
    split at h
    next heqm => simp at h
    next vm1 inp1 v heqm =>
      simp only [Option.some.injEq, Prod.mk.injEq] at h
      obtain ⟨h1, h2⟩ := h
      subst h2
      exact ⟨addr, vm1, v, heqc, heqm, h1.symm⟩

theorem ldi_eq {vm vmL : Vm} {instruction : Nat} {inp inpL : List Nat}
    (h : ldi vm instruction inp = some (vmL, inpL)) :
    ∃ a vm1 inp1 temp vm2 v,
      chkAdd (vm.reg RPC) (signExtend (instruction &&& 0x1FF) 9) = some a ∧
      memRead vm a inp = some (vm1, inp1, temp) ∧
      memRead vm1 temp inp1 = some (vm2, inpL, v) ∧
      vmL = updateFlags
        { vm2 with
          reg := Function.update vm2.reg ((instruction >>> 9) &&& 0x7) v }
        ((instruction >>> 9) &&& 0x7) := by
  simp only [ldi] at h
  split at h
  next heqc => simp at h
  next a heqc =>
    split at h
    next heqm => simp at h
    next vm1 inp1 temp heqm =>
      split at h
      next heqm2 => simp at h
      next vm2 inp2 v heqm2 =>
        simp only [Option.some.injEq, Prod.mk.injEq] at h
        obtain ⟨h1, h2⟩ := h
        subst h2
        exact ⟨a, vm1, inp1, temp, vm2, v, heqc, heqm, heqm2, h1.symm⟩

/-- C1: after every executed instruction that writes a destination
register (ADD, LD, AND, LDR, NOT, LDI, LEA), COND holds exactly the flag
determined by the destination value: ZRO (2) when it is 0, NEG (4) when
its bit 15 is set, POS (1) otherwise, and exactly one bit of COND is
set. -/
theorem flags_one_hot_after_writeback
    (vm vm' : Vm) (instruction : Nat) (inp inp' out : List Nat)
    (hwf : vm.WF) (hin : ∀ x ∈ inp, x < 256)
    (hop : instruction >>> 12 = 1 ∨ instruction >>> 12 = 2 ∨
           instruction >>> 12 = 5 ∨ instruction >>> 12 = 6 ∨
           instruction >>> 12 = 9 ∨ instruction >>> 12 = 10 ∨
           instruction >>> 12 = 14)
    (hex : execInstr vm instruction inp = some (.cont vm' inp' out)) :
    vm'.reg RCOND =
      (if vm'.reg ((instruction >>> 9) &&& 0x7) = 0 then FlagZRO
       else if Nat.testBit (vm'.reg ((instruction >>> 9) &&& 0x7)) 15 then
         FlagNEG
       else FlagPOS) ∧
    (∃! i, Nat.testBit (vm'.reg RCOND) i = true) := by
  obtain ⟨hreg, hmem⟩ := hwf
  have hd : (instruction >>> 9) &&& 0x7 < 9 :=
    Nat.lt_of_le_of_lt Nat.and_le_right (by norm_num)
  rcases hop with h | h | h | h | h | h | h
  · -- ADD
    simp only [execInstr, h] at hex
    norm_num at hex
    obtain ⟨h1, h2, h3⟩ := hex
    subst h1
    by_cases himm : (instruction >>> 5) &&& 0x1 = 1 <;>
      simp only [add, himm, if_true, if_false, reduceCtorEq, reduceIte] <;>
      exact updateFlags_c1 _ _ hd
        (by simp only [Function.update_same]; exact Nat.mod_lt _ (by norm_num))
  · -- LD
    simp only [execInstr, h] at hex
    norm_num at hex
    obtain ⟨vmL, inpL, hld, hvm', hinp', hout⟩ := hex
    subst hvm'
    obtain ⟨vm1, v, hm, hvm⟩ := ld_eq hld
    obtain ⟨hmem1, hv, hin1, hreg1⟩ := memRead_wf hm hmem hin
    rw [hvm]
    exact updateFlags_c1 _ _ hd
      (by simp only [Function.update_same]; exact hv)
  · -- AND
    simp only [execInstr, h] at hex
    norm_num at hex
    obtain ⟨h1, h2, h3⟩ := hex
    subst h1
    by_cases himm : (instruction >>> 5) &&& 0x1 = 1 <;>
      simp only [and, himm, if_true, if_false, reduceCtorEq, reduceIte] <;>
      exact updateFlags_c1 _ _ hd
        (by simp only [Function.update_same]
            exact Nat.lt_of_le_of_lt Nat.and_le_left
              (hreg ((instruction >>> 6) &&& 0x7)))
  · -- LDR
    simp only [execInstr, h] at hex
    norm_num at hex
    obtain ⟨vmL, inpL, hld, hvm', hinp', hout⟩ := hex
    subst hvm'
    obtain ⟨addr, vm1, v, hc, hm, hvm⟩ := ldr_eq hld
    obtain ⟨hmem1, hv, hin1, hreg1⟩ := memRead_wf hm hmem hin
    rw [hvm]
    exact updateFlags_c1 _ _ hd
      (by simp only [Function.update_same]; exact hv)
  · -- NOT
    simp only [execInstr, h] at hex
    norm_num at hex
    obtain ⟨h1, h2, h3⟩ := hex
    subst h1
    simp only [not]
    exact updateFlags_c1 _ _ hd
      (by simp only [Function.update_same]
          exact xor_ffff_lt (hreg ((instruction >>> 6) &&& 0x7)))
  · -- LDI
    simp only [execInstr, h] at hex
    norm_num at hex
    obtain ⟨vmL, inpL, hld, hvm', hinp', hout⟩ := hex
    subst hvm'
    obtain ⟨a, vm1, inp1, temp, vm2, v, hc, hm, hm2, hvm⟩ := ldi_eq hld
    obtain ⟨hmem1, hv1, hin1, hreg1⟩ := memRead_wf hm hmem hin
    obtain ⟨hmem2, hv2, hin2, hreg2⟩ := memRead_wf hm2 hmem1 hin1
    rw [hvm]
    exact updateFlags_c1 _ _ hd
      (by simp only [Function.update_same]; exact hv2)
  · -- LEA
    simp only [execInstr, h] at hex
    norm_num at hex
    obtain ⟨h1, h2, h3⟩ := hex
    subst h1
    simp only [lea]
    exact updateFlags_c1 _ _ hd
      (by simp only [Function.update_same]; exact Nat.mod_lt _ (by norm_num))

/-- Witness for C1: an ADD-immediate instruction on the zeroed machine
(0x1021 adds 1 to R0 and stores in R0) leaves COND holding exactly the
POS flag. -/
theorem flags_one_hot_after_writeback_witness :
    (add vmInit 0x1021).reg RCOND =
      (if (add vmInit 0x1021).reg ((0x1021 >>> 9) &&& 0x7) = 0 then FlagZRO
       else if Nat.testBit ((add vmInit 0x1021).reg ((0x1021 >>> 9) &&& 0x7))
           15 then FlagNEG
       else FlagPOS) ∧
    (∃! i, Nat.testBit ((add vmInit 0x1021).reg RCOND) i = true) :=
  flags_one_hot_after_writeback vmInit (add vmInit 0x1021) 0x1021 [] [] []
    ⟨fun _ => (by decide : (0 : Nat) < 65536),
     fun _ => (by decide : (0 : Nat) < 65536)⟩
    (fun x hx => absurd hx (List.not_mem_nil x))
    (Or.inl (by decide)) rfl

/-- C2 counterexample: sign_extend does not mask the low bits, so for an
input whose bits above the field width are set (0x20 viewed as a 5-bit
field) and whose sign bit (bit 4) is clear, the result is not the low 5
bits of the input with all higher bits zero: the claim predicts 0, the
code returns 0x20 unchanged. -/
theorem signExtend_unmasked_counterexample :
    Nat.testBit 0x20 4 = false ∧ signExtend 0x20 5 = 0x20 ∧
    0x20 % 2 ^ 5 = 0 ∧ signExtend 0x20 5 ≠ 0x20 % 2 ^ 5 :=
  ⟨by decide, by decide, by decide, by decide⟩

/-- C2 amended: for bit widths 1-15 and inputs that fit in the field (as
every call site guarantees by masking), sign_extend is standard two's
complement sign extension: the result is x itself when bit (b-1) is
clear, x + (2^16 - 2^b) when it is set; bitwise, bits b..15 of the result
are all forced high exactly when the sign bit of the field is set, all
other bits are those of x; and the two specific examples of the spec
hold. -/
theorem signExtend_spec (x b : Nat) (hb1 : 1 ≤ b) (hb2 : b ≤ 15)
    (hx : x < 2 ^ b) :
    signExtend x b =
      (if Nat.testBit x (b - 1) = true then x + (65536 - 2 ^ b) else x) ∧
    (∀ i, Nat.testBit (signExtend x b) i =
      (Nat.testBit x i ||
        (Nat.testBit x (b - 1) && decide (b ≤ i ∧ i < 16)))) ∧
    signExtend x b < 65536 ∧
    signExtend 0x1F 5 = 0xFFFF ∧ signExtend 0x0F 5 = 0x000F := by
  have hple : 2 ^ b ≤ 32768 := by
    calc 2 ^ b ≤ 2 ^ 15 := Nat.pow_le_pow_right (by norm_num) hb2
    _ = 32768 := by norm_num
  have hpos : 1 ≤ 2 ^ b := Nat.one_le_two_pow
  have hcond : ((x >>> (b - 1)) &&& 1 ≠ 0) ↔ Nat.testBit x (b - 1) = true := by
    rw [Nat.and_one_is_mod, Nat.shiftRight_eq_div_pow, Nat.testBit_to_div_mod,
      decide_eq_true_eq]
    omega
  have hm : (0xFFFF <<< b) % 65536 = 65536 - 2 ^ b := by
    rw [Nat.shiftLeft_eq]
    omega
  have hpw : 2 ^ (16 - b) * 2 ^ b = 65536 := by
    rw [← pow_add]
    have hb16 : 16 - b + b = 16 := by omega
    rw [hb16]; norm_num
  have hshift : 65536 - 2 ^ b = (2 ^ (16 - b) - 1) <<< b := by
    rw [Nat.shiftLeft_eq, Nat.sub_one_mul, hpw]
  by_cases htb : Nat.testBit x (b - 1) = true
  · have hraw : (x >>> (b - 1)) &&& 1 ≠ 0 := hcond.mpr htb
    have hse : signExtend x b = x ||| (65536 - 2 ^ b) := by
      rw [signExtend, if_pos hraw, hm]
    have hor : x ||| (65536 - 2 ^ b) = x + (65536 - 2 ^ b) := by
      conv_lhs => rw [hshift]
      rw [lor_two_pow_mul _ _ hx, Nat.mul_sub_one,
        Nat.mul_comm (2 ^ b) (2 ^ (16 - b)), hpw]
    refine ⟨?_, ?_, ?_, by decide, by decide⟩
    · rw [hse, hor, if_pos htb]
    · intro i
      rw [hse]
      simp only [Nat.testBit_or, htb, Bool.true_and]
      congr 1
      rw [hshift, Nat.testBit_shiftLeft, Nat.testBit_two_pow_sub_one]
      by_cases h1 : b ≤ i <;> by_cases h2 : i < 16 <;>
        simp [h1, h2] <;> omega
    · rw [hse, hor]; omega
  · have htb' : Nat.testBit x (b - 1) = false := by
      cases hq : Nat.testBit x (b - 1) with
      | false => rfl
      | true => exact absurd hq htb
    have hraw : ¬ ((x >>> (b - 1)) &&& 1 ≠ 0) := fun hc => htb (hcond.mp hc)
    have hse : signExtend x b = x := by rw [signExtend, if_neg hraw]
    refine ⟨?_, ?_, ?_, by decide, by decide⟩
    · rw [hse, htb']; simp
    · intro i
      rw [hse, htb']
      simp
    · rw [hse]; omega

/-- Witness for C2: the amended sign-extension law at the concrete input
0x1F with a 5-bit field (sign bit set, so the result is 0xFFFF). -/
theorem signExtend_spec_witness :
    signExtend 31 5 =
      (if Nat.testBit 31 (5 - 1) = true then 31 + (65536 - 2 ^ 5) else 31) ∧
    (∀ i, Nat.testBit (signExtend 31 5) i =
      (Nat.testBit 31 i ||
        (Nat.testBit 31 (5 - 1) && decide (5 ≤ i ∧ i < 16)))) ∧
    signExtend 31 5 < 65536 ∧
    signExtend 0x1F 5 = 0xFFFF ∧ signExtend 0x0F 5 = 0x000F :=
  signExtend_spec 31 5 (by decide) (by decide) (by decide)

/-- C3 (code bug): with PC = 0xFFFF, the LDI effective-address addition
reg[PC] + sign_extend(offset) is performed as a plain u16 + (no 32-bit
intermediate, unlike the other PC-relative handlers), so it overflows
(none, the debug panic) instead of wrapping to 0x0000 as the claim
states; the fetch increment PC += 1 likewise overflows instead of
wrapping; by contrast LD at the same state succeeds because its address
does go through the 32-bit cast. -/
theorem ldi_u16_overflow :
    chkAdd (vmTop.reg RPC) (signExtend (0xA001 &&& 0x1FF) 9) = none ∧
    ldi vmTop 0xA001 [] = none ∧
    step vmTop [] = none ∧
    (vmTop.reg RPC + signExtend (0xA001 &&& 0x1FF) 9) % 65536 = 0 ∧
    (ld vmTop 0x2001 []).isSome = true :=
  ⟨rfl, rfl, rfl, by decide, by decide⟩

/-- C6: a TRAP instruction first stores PC in R7; when the low 8 bits of
the instruction are none of the six recognized vectors 0x20-0x25, the
dispatch lands in the fatal default arm (invalidTrap, exit(1)), with no
register other than R7 and no memory word modified. -/
theorem trap_invalid_vector (vm : Vm) (instruction : Nat) (inp : List Nat)
    (h20 : instruction &&& 0xFF ≠ 0x20) (h21 : instruction &&& 0xFF ≠ 0x21)
    (h22 : instruction &&& 0xFF ≠ 0x22) (h23 : instruction &&& 0xFF ≠ 0x23)
    (h24 : instruction &&& 0xFF ≠ 0x24) (h25 : instruction &&& 0xFF ≠ 0x25) :
    trap vm instruction inp =
      some (.invalidTrap
        { vm with reg := Function.update vm.reg 7 (vm.reg RPC) } inp []) ∧
    ({ vm with reg := Function.update vm.reg 7 (vm.reg RPC) } : Vm).mem
      = vm.mem ∧
    (∀ i, i ≠ 7 → Function.update vm.reg 7 (vm.reg RPC) i = vm.reg i) ∧
    Function.update vm.reg 7 (vm.reg RPC) 7 = vm.reg RPC := by
  refine ⟨?_, rfl, fun i hi => Function.update_noteq hi _ _,
    Function.update_same _ _ _⟩
  simp [trap, h20, h21, h22, h23, h24, h25]

/-- Witness for C6 at the unrecognized trap vector 0xFF. -/
theorem trap_invalid_vector_witness :
    trap vmInit 0xF0FF [] =
      some (.invalidTrap
        { vmInit with
          reg := Function.update vmInit.reg 7 (vmInit.reg RPC) } [] []) ∧
    ({ vmInit with
       reg := Function.update vmInit.reg 7 (vmInit.reg RPC) } : Vm).mem
      = vmInit.mem ∧
    (∀ i, i ≠ 7 →
      Function.update vmInit.reg 7 (vmInit.reg RPC) i = vmInit.reg i) ∧
    Function.update vmInit.reg 7 (vmInit.reg RPC) 7 = vmInit.reg RPC :=
  trap_invalid_vector vmInit 0xF0FF [] (by decide) (by decide) (by decide)
    (by decide) (by decide) (by decide)

/-- C7 counterexample: the HALT trap terminates the process with exit
code 1 (exit(1) in the HALT arm), but the unmatched-opcode termination
path exits with code 0 (break out of the loop, then exit(0)), so a clean
halt and a decode-failure termination do not share the same exit code.
The last two conjuncts ground the two outcomes in the model: a TRAP HALT
instruction produces the halted outcome, and a word whose top 4 bits lie
outside 0-15 (impossible for a stored 16-bit word, hence the dead
defensive arm) produces the decodeFail outcome. -/
theorem exitCode_halt_ne_decodeFail :
    exitCode (Outcome.halted vmInit [] []) = some 1 ∧
    exitCode (Outcome.decodeFail vmInit [] []) = some 0 ∧
    exitCode (Outcome.halted vmInit [] []) ≠
      exitCode (Outcome.decodeFail vmInit [] []) ∧
    trap vmInit 0xF025 [] =
      some (.halted
        { vmInit with
          reg := Function.update vmInit.reg 7 (vmInit.reg RPC) } [] []) ∧
    execInstr vmInit 0x10000 [] = some (.decodeFail vmInit [] []) :=
  ⟨rfl, rfl, by decide, rfl, rfl⟩

/-- C7 amended: the HALT trap and the unrecognized-trap-vector
termination share exit code 1 and are distinguished only by their
console messages; the unmatched-opcode termination (a structurally
unreachable defensive branch) exits with code 0 instead. -/
theorem exitCode_halt_eq_invalidTrap :
    ∀ vm inp out,
      exitCode (Outcome.halted vm inp out) =
        exitCode (Outcome.invalidTrap vm inp out) ∧
      exitCode (Outcome.halted vm inp out) = some 1 ∧
      exitCode (Outcome.decodeFail vm inp out) = some 0 :=
  fun _ _ _ => ⟨rfl, rfl, rfl⟩

/-- C8: an instruction whose opcode field is RTI (8) or RES (13)
executes as a no-op: the full fetch-decode-execute step leaves every
register except PC and every memory word unchanged, and PC is exactly
the instruction address plus 1, the fetch-time advancement (stated away
from the keyboard-status address, where the fetch itself polls, and away
from the PC overflow at 0xFFFF). -/
theorem rti_res_noop (vm : Vm) (inp : List Nat)
    (hpc1 : vm.reg RPC ≠ MR_KBSR) (hpc2 : vm.reg RPC + 1 < 65536)
    (hop : vm.mem (vm.reg RPC) >>> 12 = 8 ∨
           vm.mem (vm.reg RPC) >>> 12 = 13) :
    step vm inp =
      some (.cont
        { vm with reg := Function.update vm.reg RPC (vm.reg RPC + 1) }
        inp []) ∧
    ({ vm with reg := Function.update vm.reg RPC (vm.reg RPC + 1) } : Vm).mem
      = vm.mem ∧
    (∀ i, i ≠ RPC →
      Function.update vm.reg RPC (vm.reg RPC + 1) i = vm.reg i) ∧
    Function.update vm.reg RPC (vm.reg RPC + 1) RPC = vm.reg RPC + 1 := by
  refine ⟨?_, rfl, fun i hi => Function.update_noteq hi _ _,
    Function.update_same _ _ _⟩
  rcases hop with h | h <;>
    simp [step, memRead, if_neg hpc1, chkAdd, if_pos hpc2, execInstr, h]

/-- Witness for C8: a machine whose memory is filled with the RTI
pattern 0x8000 and whose PC is 0x3000 steps to the same state with PC
advanced to 0x3001. -/
theorem rti_res_noop_witness :
    step vmRti [] =
      some (.cont
        { vmRti with
          reg := Function.update vmRti.reg RPC (vmRti.reg RPC + 1) }
        [] []) ∧
    ({ vmRti with
       reg := Function.update vmRti.reg RPC (vmRti.reg RPC + 1) } : Vm).mem
      = vmRti.mem ∧
    (∀ i, i ≠ RPC →
      Function.update vmRti.reg RPC (vmRti.reg RPC + 1) i = vmRti.reg i) ∧
    Function.update vmRti.reg RPC (vmRti.reg RPC + 1) RPC =
      vmRti.reg RPC + 1 :=
  rti_res_noop vmRti [] (by decide) (by decide) (Or.inl (by decide))

/-- C9: the GETC (0x20) and IN (0x23) traps store the input byte,
zero-extended, into R0 (after saving PC to R7) but never call
update_flags, so COND after the trap is exactly COND before it. -/
theorem getc_in_preserve_cond (vm : Vm) (instruction : Nat) (b : Nat)
    (rest : List Nat)
    (h : instruction &&& 0xFF = 0x20 ∨ instruction &&& 0xFF = 0x23) :
    trap vm instruction (b :: rest) =
      some (.cont
        { vm with
          reg := Function.update
                   (Function.update vm.reg 7 (vm.reg RPC)) 0 b } rest []) ∧
    Function.update (Function.update vm.reg 7 (vm.reg RPC)) 0 b RCOND =
      vm.reg RCOND ∧
    Function.update (Function.update vm.reg 7 (vm.reg RPC)) 0 b 0 = b := by
  refine ⟨?_, ?_, Function.update_same _ _ _⟩
  · rcases h with h | h <;> simp [trap, h]
  · rw [Function.update_noteq (by decide), Function.update_noteq (by decide)]

/-- Witness for C9: GETC on the zeroed machine with input byte 65 writes
65 into R0 and leaves COND untouched. -/
theorem getc_in_preserve_cond_witness :
    trap vmInit 0xF020 (65 :: []) =
      some (.cont
        { vmInit with
          reg := Function.update
                   (Function.update vmInit.reg 7 (vmInit.reg RPC)) 0 65 }
        [] []) ∧
    Function.update (Function.update vmInit.reg 7 (vmInit.reg RPC)) 0 65
        RCOND = vmInit.reg RCOND ∧
    Function.update (Function.update vmInit.reg 7 (vmInit.reg RPC)) 0 65 0
      = 65 :=
  getc_in_preserve_cond vmInit 0xF020 65 [] (Or.inl (by decide))

theorem lor_byte {lo : Nat} (hi : Nat) (h : lo < 256) :
    lo ||| (hi <<< 8) = lo + 256 * hi := by
  rw [lor_two_pow_mul hi 8 (lt_of_lt_of_eq h (by norm_num))]
  norm_num

theorem swap16_le {lo hi : Nat} (hlo : lo < 256) (hhi : hi < 256) :
    swap16 (lo ||| (hi <<< 8)) = 256 * lo + hi := by
  rw [lor_byte hi hlo]
  unfold swap16
  rw [Nat.shiftLeft_eq, Nat.shiftRight_eq_div_pow]
  have h1 : (lo + 256 * hi) * 2 ^ 8 % 65536 = 256 * lo := by
    norm_num
    omega
  have h2 : (lo + 256 * hi) / 2 ^ 8 = hi := by
    norm_num
    omega
  rw [h1, h2, Nat.or_comm]
  have h3 : (256 : Nat) * lo = lo <<< 8 := by
    rw [Nat.shiftLeft_eq]; ring
  rw [h3, lor_byte lo hhi]
  omega

/-- C4 counterexample: loading the 6-byte stream 30 00 12 34 AB CD
(origin 0x3000 followed by two big-endian data words) makes read_image
report a count of 4, the number of data BYTES read as returned by
handle.read, not the loaded-word count of 2 that the claim states. -/
theorem readImage_returns_byte_count :
    (readImage vmInit [0x30, 0x00, 0x12, 0x34, 0xAB, 0xCD]).map Prod.snd =
      some 4 ∧ (4 : Nat) ≠ 2 :=
  ⟨rfl, by decide⟩

/-- C4 amended: loading a stream whose first big-endian word is the
origin 0x3000 followed by two big-endian data words stores the two
words, byte-swapped to host order, at 0x3000 and 0x3001, leaves every
other memory word (and the origin address content apart from the first
data word) untouched, does not store the origin word itself as data, and
returns a count of 4 = the number of data bytes read (two bytes per
word), not a word count. -/
theorem readImage_two_words (vm : Vm) (b2 b3 b4 b5 : Nat)
    (h2 : b2 < 256) (h3 : b3 < 256) (h4 : b4 < 256) (h5 : b5 < 256) :
    readImage vm [0x30, 0x00, b2, b3, b4, b5] =
      some ({ vm with
              mem := Function.update
                       (Function.update vm.mem 0x3000 (256 * b2 + b3))
                       0x3001 (256 * b4 + b5) }, 4) ∧
    (∀ a, Function.update
        (Function.update vm.mem 0x3000 (256 * b2 + b3))
        0x3001 (256 * b4 + b5) a =
      (if a = 0x3001 then 256 * b4 + b5
       else if a = 0x3000 then 256 * b2 + b3
       else vm.mem a)) := by
  constructor
  · have horigin : swap16 ((0x30 : Nat) ||| (0x00 <<< 8)) = 0x3000 := by
      decide
    simp only [readImage, List.getD_cons_zero, List.getD_cons_succ]
    rw [horigin]
    norm_num [MEM_MAX]
    simp only [loadBytes]
    rw [swap16_le h2 h3, swap16_le h4 h5]
  · intro a
    simp only [Function.update_apply]

/-- Witness for C4 amended: the two data words 0x1234 and 0xABCD land
at 0x3000 and 0x3001 with a reported byte count of 4. -/
theorem readImage_two_words_witness :
    readImage vmInit [0x30, 0x00, 0x12, 0x34, 0xAB, 0xCD] =
      some ({ vmInit with
              mem := Function.update
                       (Function.update vmInit.mem 0x3000 (256 * 0x12 + 0x34))
                       0x3001 (256 * 0xAB + 0xCD) }, 4) ∧
    (∀ a, Function.update
        (Function.update vmInit.mem 0x3000 (256 * 0x12 + 0x34))
        0x3001 (256 * 0xAB + 0xCD) a =
      (if a = 0x3001 then 256 * 0xAB + 0xCD
       else if a = 0x3000 then 256 * 0x12 + 0x34
       else vmInit.mem a)) :=
  readImage_two_words vmInit 0x12 0x34 0xAB 0xCD (by decide) (by decide)
    (by decide) (by decide)

end LC3
